import Mathlib

/- Verification of the response-extraction pipeline of the
   Deepseek-Censorship-Removal repository (src/dataset_gen.py and
   src/dataset_qa.py; the parsing block at lines 48-95 is identical in the
   two files).  Python strings are modelled as lists of characters; the
   Python string methods used by the source (find, rfind, slicing, strip,
   startswith, split) are translated one by one below. -/

/-- Python whitespace for str.strip(): space, tab, newline, carriage
return, vertical tab, form feed. -/
def pyWs (c : Char) : Bool :=
  c = ' ' || c = '\t' || c = '\n' || c = '\r' || c = Char.ofNat 11 || c = Char.ofNat 12

/-- Python str.strip(): remove leading and trailing whitespace. -/
def stripL (cs : List Char) : List Char :=
  ((cs.dropWhile pyWs).reverse.dropWhile pyWs).reverse

/-- Python str.startswith. -/
def startsWithL : List Char → List Char → Bool
  | _, [] => true
  | [], _ :: _ => false
  | c :: cs, p :: ps => c = p && startsWithL cs ps

/-- Python str.find(ch): index of the first occurrence, -1 if absent. -/
def findIdx : List Char → Char → Int
  | [], _ => -1
  | c :: cs, t =>
    if c = t then 0
    else
      let r := findIdx cs t
      if r = -1 then -1 else r + 1

def rfindAux : List Char → Char → Int → Int → Int
  | [], _, _, best => best
  | c :: cs, t, i, best => rfindAux cs t (i + 1) (if c = t then i else best)

/-- Python str.rfind(ch): index of the last occurrence, -1 if absent. -/
def rfindIdx (cs : List Char) (t : Char) : Int :=
  rfindAux cs t 0 (-1)

/-- Python slicing s[a:b] for nonnegative a and b (the only case the
source reaches: a comes from a successful find, b equals rfind + 1). -/
def sliceL (cs : List Char) (a b : Int) : List Char :=
  (cs.drop a.toNat).take (b.toNat - a.toNat)

/-- Python s.split(sep, 1): some (before, after) at the first separator,
none when the separator does not occur. -/
def splitAtFirst : List Char → Char → Option (List Char × List Char)
  | [], _ => none
  | c :: cs, sep =>
    if c = sep then some ([], cs)
    else (splitAtFirst cs sep).map (fun p => (c :: p.1, p.2))

/-- Python s.split(newline): the empty string yields one empty line,
and a trailing newline yields a trailing empty line. -/
def splitLines : List Char → List (List Char)
  | [] => [[]]
  | c :: cs =>
    if c = '\n' then [] :: splitLines cs
    else
      match splitLines cs with
      | [] => [[c]]
      | l :: ls => (c :: l) :: ls

/-- Decoded JSON values, as produced by json.loads.  Numbers are
restricted to integers: the source never relies on fractional values and
the decoder below treats a fractional literal as a decode error. -/
inductive Json where
  | null : Json
  | bool (b : Bool) : Json
  | num (n : Int) : Json
  | str (s : String) : Json
  | arr (xs : List Json) : Json
  | obj (kvs : List (String × Json)) : Json
def Json.isArr : Json → Bool
  | .arr _ => true
  | _ => false

/-- Number of elements when the value is an array, 0 otherwise. -/
def Json.arrLen : Json → Nat
  | .arr xs => xs.length
  | _ => 0

/-- JSON token whitespace (what json.loads skips between tokens). -/
def jsonWs (c : Char) : Bool :=
  c = ' ' || c = '\t' || c = '\n' || c = '\r'

def skipWs (cs : List Char) : List Char :=
  cs.dropWhile jsonWs

/-- Escape characters accepted inside JSON string literals. -/
def escChar (e : Char) : Option Char :=
  if e = '"' then some '"'
  else if e = '\\' then some '\\'
  else if e = '/' then some '/'
  else if e = 'n' then some '\n'
  else if e = 't' then some '\t'
  else if e = 'r' then some '\r'
  else if e = 'b' then some (Char.ofNat 8)
  else if e = 'f' then some (Char.ofNat 12)
  else none

/-- Body of a JSON string literal, after the opening quote.  Raw control
characters are rejected, as json.loads does in strict mode. -/
def parseStringBody : List Char → List Char → Option (String × List Char)
  | [], _ => none
  | c :: rest, acc =>
    if c = '"' then some (String.mk acc.reverse, rest)
    else if c = '\\' then
      match rest with
      | [] => none
      | e :: rest2 =>
        match escChar e with
        | some ch => parseStringBody rest2 (ch :: acc)
        | none => none
    else if c.toNat < 32 then none
    else parseStringBody rest (c :: acc)

def digitsVal (ds : List Char) : Nat :=
  ds.foldl (fun a c => a * 10 + (c.toNat - 48)) 0

/-- JSON number literal.  Fractional and exponent forms are treated as
decode errors (a restriction of the model; no theorem below feeds the
decoder such an input). -/
def parseNumber (cs : List Char) : Option (Json × List Char) :=
  let p : Bool × List Char := match cs with
    | '-' :: r => (true, r)
    | _ => (false, cs)
  match p.2 with
  | [] => none
  | d :: _ =>
    if d.isDigit then
      let ds := p.2.takeWhile Char.isDigit
      let rest := p.2.dropWhile Char.isDigit
      if d = '0' ∧ ds.length > 1 then none
      else
        match rest with
        | '.' :: _ => none
        | 'e' :: _ => none
        | 'E' :: _ => none
        | _ =>
          let n : Int := (digitsVal ds : Nat)
          some (Json.num (if p.1 then -n else n), rest)
    else none

/-- Literal keywords true / false / null. -/
def parseKeyword (cs : List Char) : Option (Json × List Char) :=
  if startsWithL cs "true".data then some (Json.bool true, cs.drop 4)
  else if startsWithL cs "false".data then some (Json.bool false, cs.drop 5)
  else if startsWithL cs "null".data then some (Json.null, cs.drop 4)
  else none

mutual

/-- One JSON value, fuel-bounded recursive descent. -/
def parseValue : Nat → List Char → Option (Json × List Char)
  | 0, _ => none
  | Nat.succ f, cs =>
    match skipWs cs with
    | [] => none
    | c :: rest =>
      if c = '"' then
        match parseStringBody rest [] with
        | some p => some (Json.str p.1, p.2)
        | none => none
      else if c = '[' then
        match skipWs rest with
        | ']' :: rest2 => some (Json.arr [], rest2)
        | _ => parseArrItems f rest []
      else if c = Char.ofNat 123 then
        match skipWs rest with
        | c2 :: rest2 => if c2 = Char.ofNat 125 then some (Json.obj [], rest2) else parseObjItems f rest []
        | [] => none
      else if c = '-' ∨ c.isDigit then parseNumber (c :: rest)
      else parseKeyword (c :: rest)

/-- Comma-separated array elements, after a nonempty opening bracket. -/
def parseArrItems : Nat → List Char → List Json → Option (Json × List Char)
  | 0, _, _ => none
  | Nat.succ f, cs, acc =>
    match parseValue f cs with
    | none => none
    | some p =>
      match skipWs p.2 with
      | ',' :: rest2 => parseArrItems f rest2 (p.1 :: acc)
      | ']' :: rest2 => some (Json.arr (p.1 :: acc).reverse, rest2)
      | _ => none

/-- Comma-separated object members, after a nonempty opening brace. -/
def parseObjItems : Nat → List Char → List (String × Json) → Option (Json × List Char)
  | 0, _, _ => none
  | Nat.succ f, cs, acc =>
    match skipWs cs with
    | '"' :: rest =>
      match parseStringBody rest [] with
      | none => none
      | some k =>
        match skipWs k.2 with
        | ':' :: rest3 =>
          match parseValue f rest3 with
          | none => none
          | some v =>
            match skipWs v.2 with
            | ',' :: rest5 => parseObjItems f rest5 ((k.1, v.1) :: acc)
            | c5 :: rest5 =>
              if c5 = Char.ofNat 125 then some (Json.obj ((k.1, v.1) :: acc).reverse, rest5)
              else none
            | [] => none
        | _ => none
    | _ => none

end

/-- json.loads: decode one value and require only whitespace after it. -/
def jsonLoads (cs : List Char) : Option Json :=
  match parseValue (2 * cs.length + 2) cs with
  | some p => if skipWs p.2 = [] then some p.1 else none
  | none => none

/-- A question/answer record recovered from the model response. -/
structure QARecord where
  question : String
  answer : String
deriving DecidableEq, Repr

/-- The object shape built by the fallback branch of the source:
a dict with the keys question and answer. -/
def objQA (q a : String) : Json :=
  Json.obj [("question", Json.str q), ("answer", Json.str a)]

/-- Fallback parser state: (questions_answers, current_question,
current_answer), as in src/dataset_gen.py lines 64-66. -/
abbrev FbState := List QARecord × Option (List Char) × List Char

/-- One line of the fallback loop, src/dataset_gen.py lines 68-86. -/
def fbStep (st : FbState) (line : List Char) : FbState :=
  let t := stripL line
  if startsWithL t "Q".data || startsWithL t "Question".data then
    let recs := match st.2.1 with
      | some q => st.1 ++ [⟨String.mk q, String.mk (stripL st.2.2)⟩]
      | none => st.1
    match splitAtFirst line ':' with
    | some p => (recs, some (stripL p.2), [])
    | none => (recs, st.2.1, st.2.2)
  else if startsWithL t "A".data || startsWithL t "Answer".data then
    match splitAtFirst line ':' with
    | some p => (st.1, st.2.1, stripL p.2)
    | none => st
  else if st.2.1.isSome then (st.1, st.2.1, st.2.2 ++ ' ' :: t)
  else st

/-- The whole fallback scan, src/dataset_gen.py lines 62-93: split on
newlines, fold the state machine, then flush the open record. -/
def fallbackRecords (cs : List Char) : List QARecord :=
  let fin := (splitLines cs).foldl fbStep ([], none, [])
  fin.1 ++
    match fin.2.1 with
    | some q => [⟨String.mk q, String.mk (stripL fin.2.2)⟩]
    | none => []

/-- The fallback result as returned at line 95: truncated to
num_questions and shaped as a JSON array of question/answer objects. -/
def fallbackJson (cs : List Char) (num_questions : Nat) : Json :=
  Json.arr (((fallbackRecords cs).take num_questions).map
    (fun r => objQA r.question r.answer))

/-- The response-text extraction of generate_questions_and_answers,
src/dataset_gen.py lines 48-95 (identical in src/dataset_qa.py): find
the first opening bracket and one past the last closing bracket, decode
the slice when the test passes (otherwise decode the whole text), and on
a decode error run the line-oriented fallback. -/
def parseResponse (response_text : String) (num_questions : Nat) : Json :=
  let start_idx := findIdx response_text.data '['
  let end_idx := rfindIdx response_text.data ']' + 1
  if start_idx ≠ -1 ∧ end_idx ≠ -1 then
    match jsonLoads (sliceL response_text.data start_idx end_idx) with
    | some v => v
    | none => fallbackJson response_text.data num_questions
  else
    match jsonLoads response_text.data with
    | some v => v
    | none => fallbackJson response_text.data num_questions

/-- The text that stage 1 actually hands to the decoder: the bracket
slice when the marker test passes, the whole text otherwise. -/
def stage1Target (cs : List Char) : List Char :=
  let start_idx := findIdx cs '['
  let end_idx := rfindIdx cs ']' + 1
  if start_idx ≠ -1 ∧ end_idx ≠ -1 then sliceL cs start_idx end_idx else cs

/- ----------------- the two result writers ----------------- -/

/-- One seed row of the input spreadsheet: a Category and a Topic. -/
structure SeedPair where
  category : String
  topic : String
deriving DecidableEq, Repr

/-- A decoded question/answer object as the writers consume it:
string-valued keys, read with dict.get and a default. -/
abbrev QADict := List (String × String)

/-- Python dict.get(k, default-empty-string). -/
def pyGet (d : QADict) (k : String) : String :=
  match d.find? (fun e => e.1 == k) with
  | some e => e.2
  | none => ""

/-- One output row of the long layout (src/dataset_gen.py
write_results_to_excel, lines 127-134). -/
structure LongRow where
  category : String
  topic : String
  question : String
  answer : String
deriving DecidableEq, Repr

/-- The per-pair generation outcome the writers branch on: none models a
falsy qa_results (a failed call), some qs the decoded record list. -/
abbrev GenOutcome := Option (List QADict)

/-- Rows a single seed pair contributes in the long layout. -/
def longRowsOf (p : SeedPair) (res : GenOutcome) : List LongRow :=
  match res with
  | some qs =>
    if qs.isEmpty then []
    else qs.map (fun qa => ⟨p.category, p.topic, pyGet qa "question", pyGet qa "answer"⟩)
  | none => []

/-- The long-layout accumulation loop of write_results_to_excel in
src/dataset_gen.py (lines 115-142): result_data starts empty and each
seed row appends one output row per decoded record, skipped entirely
when qa_results is falsy. -/
def longRows (batch : List (SeedPair × GenOutcome)) : List LongRow :=
  batch.foldl
    (fun acc pr =>
      match pr.2 with
      | some qs =>
        if qs.isEmpty then acc
        else acc ++ qs.map (fun qa =>
          (⟨pr.1.category, pr.1.topic, pyGet qa "question", pyGet qa "answer"⟩ : LongRow))
      | none => acc)
    []

/-- A spreadsheet row for the wide layout: ordered (column, value)
entries, as a pandas row indexed by column name. -/
abbrev WideRow := List (String × String)

/-- Assignment to a column of a row: pandas overwrites in place when the
column exists and appends the column at the end otherwise. -/
def setEntry (r : WideRow) (k v : String) : WideRow :=
  if r.any (fun e => e.1 == k) then
    r.map (fun e => if e.1 == k then (k, v) else e)
  else r ++ [(k, v)]

def qcol (i : Nat) : String := "Question " ++ toString i
def acol (i : Nat) : String := "Answer " ++ toString i

/-- Lines 118-120 of src/dataset_qa.py: add the ten QA columns, empty,
in the order Question 1, Answer 1, ..., Question 5, Answer 5. -/
def addQACols (r : WideRow) : WideRow :=
  [1, 2, 3, 4, 5].foldl (fun row i => setEntry (setEntry row (qcol i) "") (acol i) "") r

/-- Lines 130-136 of src/dataset_qa.py: when qa_results is truthy, fill
the cells from the first five records. -/
def fillQA (r : WideRow) (res : GenOutcome) : WideRow :=
  match res with
  | none => r
  | some qs =>
    if qs.isEmpty then r
    else (qs.take 5).enum.foldl
      (fun row p =>
        setEntry (setEntry row (qcol (p.1 + 1)) (pyGet p.2 "question"))
          (acol (p.1 + 1)) (pyGet p.2 "answer"))
      r

/-- The wide-layout output row for one seed row. -/
def wideRow (r : WideRow) (res : GenOutcome) : WideRow :=
  fillQA (addQACols r) res

/-- The wide-layout writer of src/dataset_qa.py write_results_to_excel
(lines 114-142): one output row per input row. -/
def wideRows (batch : List (WideRow × GenOutcome)) : List WideRow :=
  batch.map (fun pr => wideRow pr.1 pr.2)

/-- Row lookup by column name. -/
def pyLookup (r : WideRow) (k : String) : Option String :=
  (r.find? (fun e => e.1 == k)).map (fun e => e.2)

/- ----------------- canonical texts used by the round-trip and
fallback properties ----------------- -/

/-- Characters that a JSON string literal can carry verbatim: not the
quote, not the backslash, not a control character. -/
def safeChar (c : Char) : Bool :=
  c != '"' && c != '\\' && decide (32 ≤ c.toNat)

def safeStr (s : String) : Bool := s.data.all safeChar

def safeRec (r : QARecord) : Bool := safeStr r.question && safeStr r.answer

/-- Canonical structured encoding of one record. -/
def encRec (r : QARecord) : List Char :=
  ("\x7b\"question\":\"").data ++ r.question.data ++
    ("\",\"answer\":\"").data ++ r.answer.data ++ ("\"\x7d").data

/-- Comma-separated encodings. -/
def encItems : List QARecord → List Char
  | [] => []
  | [r] => encRec r
  | r :: rs => encRec r ++ ',' :: encItems rs

/-- Canonical structured array text encoding a record sequence. -/
def encodeRecords (R : List QARecord) : List Char :=
  '[' :: encItems R ++ [']']

/-- One Question/Answer line pair of the alternating fallback text. -/
def renderPair (q a : List Char) : List Char :=
  "Question: ".data ++ q ++ '\n' :: ("Answer: ".data ++ a)

/-- Newline-joined alternating Question/Answer lines. -/
def renderQA : List (List Char × List Char) → List Char
  | [] => []
  | [p] => renderPair p.1 p.2
  | p :: ps => renderPair p.1 p.2 ++ '\n' :: renderQA ps

/- ----------------- claim theorems ----------------- -/

/-- C1: the source checks rfind + 1 against -1, which never holds, so a
text whose first bracket exists but whose closing bracket is absent is
sliced to the empty string and the empty-slice decode fails into the
fallback; the whole-text decode, which the claim requires there and
which would succeed on this input with the string a[b, is never tried. -/
theorem c1_bracket_check_bug :
    stage1Target ("\"a[b\"").data = [] ∧
    jsonLoads ("\"a[b\"").data = some (Json.str "a[b") ∧
    parseResponse "\"a[b\"" 5 = Json.arr [] :=
  ⟨rfl, rfl, rfl⟩

/-- C2 counterexample: a well-formed structured array text encoding two
records, decoded with expected_count 1, comes back whole: stage 1 never
truncates, so the result is not the one-record truncation the claim
demands. -/
theorem c2_counterexample :
    parseResponse (String.mk (encodeRecords [⟨"q1", "a1"⟩, ⟨"q2", "a2"⟩])) 1 ≠
      Json.arr (([(⟨"q1", "a1"⟩ : QARecord), ⟨"q2", "a2"⟩].take 1).map
        (fun r => objQA r.question r.answer)) := by
  intro h
  exact absurd (congrArg Json.arrLen h) (by decide)

/-- C3 counterexample: the raw text Q: reaches the fallback, which emits
a record whose question and answer are both empty after trimming; the
record is kept, not excluded as the claim demands. -/
theorem c3_counterexample :
    parseResponse "Q:" 5 = Json.arr [objQA "" ""] := rfl

/-- C4 counterexample: on the raw text 42 the whole-text decode succeeds
with a bare number, which parse returns as-is, so the result is not an
ordered sequence of records. -/
theorem c4_counterexample :
    parseResponse "42" 5 = Json.num 42 ∧ (parseResponse "42" 5).isArr = false :=
  ⟨rfl, rfl⟩

/-- C9 counterexample: an input row that already owns a column named
Question 1 does not keep its value: the wide writer overwrites that
column with the empty string before filling. -/
theorem c9_counterexample :
    pyLookup (wideRow [("Category", "X"), ("Question 1", "keep")] none) "Question 1" = some "" ∧
    pyLookup [("Category", "X"), ("Question 1", "keep")] "Question 1" = some "keep" :=
  ⟨rfl, rfl⟩

/- ----------------- helper lemmas: string primitives ----------------- -/

theorem splitAtFirst_eq_none {l : List Char} {sep : Char} (h : sep ∉ l) :
    splitAtFirst l sep = none := by
  induction l with
  | nil => rfl
  | cons c cs ih =>
    simp only [List.mem_cons, not_or] at h
    simp [splitAtFirst, Ne.symm h.1, ih h.2]

theorem startsWithL_single {l : List Char} {c : Char}
    (h : startsWithL l [c] = true) : ∃ t, l = c :: t := by
  cases l with
  | nil => simp [startsWithL] at h
  | cons x xs =>
    simp only [startsWithL, Bool.and_eq_true, decide_eq_true_eq] at h
    exact ⟨xs, by rw [h.1]⟩

/- ----------------- C8 and C10: fallback state machine ----------------- -/

/-- C8: a line whose trimmed text starts with Q but has no colon emits
the in-progress record while leaving the current question and the
accumulated answer unchanged, so the same record can appear twice, as on
the concrete input with a trailing QQQ line. -/
theorem c8_q_line_no_colon_duplicates :
    (∀ (recs : List QARecord) (q ans line : List Char),
      (startsWithL (stripL line) "Q".data || startsWithL (stripL line) "Question".data) = true →
      ':' ∉ line →
      fbStep (recs, some q, ans) line =
        (recs ++ [⟨String.mk q, String.mk (stripL ans)⟩], some q, ans)) ∧
    parseResponse "Q: hi\nA: yo\nQQQ" 5 =
      Json.arr [objQA "hi" "yo", objQA "hi" "yo"] := by
  constructor
  · intro recs q ans line hq hc
    simp [fbStep, hq, splitAtFirst_eq_none hc]
  · rfl

/-- C8 witness: the general part applied to the state holding the record
hi / yo and the line QQQ. -/
theorem c8_witness :
    fbStep ([], some "hi".data, "yo".data) "QQQ".data =
      ([⟨"hi", "yo"⟩], some "hi".data, "yo".data) := by
  simpa using
    c8_q_line_no_colon_duplicates.1 [] "hi".data "yo".data "QQQ".data (by decide) (by decide)

/-- C10: while a question is open, a line whose trimmed text starts with
A but has no colon changes nothing: the answer is not set and the line is
not appended to the accumulator, as on the concrete input with a
trailing Also line. -/
theorem c10_a_line_no_colon_dropped :
    (∀ (recs : List QARecord) (q ans line : List Char),
      startsWithL (stripL line) "A".data = true →
      ':' ∉ line →
      fbStep (recs, some q, ans) line = (recs, some q, ans)) ∧
    parseResponse "Q: hi\nA: yo\nAlso" 5 = Json.arr [objQA "hi" "yo"] := by
  constructor
  · intro recs q ans line ha hc
    obtain ⟨t, ht⟩ := startsWithL_single ha
    simp [fbStep, ht, startsWithL, splitAtFirst_eq_none hc]
  · rfl

/-- C10 witness: the general part applied to the state holding the
record hi / yo and the line Also. -/
theorem c10_witness :
    fbStep ([], some "hi".data, "yo".data) "Also".data =
      ([], some "hi".data, "yo".data) := by
  simpa using
    c10_a_line_no_colon_dropped.1 [] "hi".data "yo".data "Also".data (by decide) (by decide)

/- ----------------- helper lemmas: the wide writer ----------------- -/

theorem lookupMapped (r : WideRow) (k v k' : String) :
    pyLookup (r.map (fun e => if e.1 == k then (k, v) else e)) k' =
      if k' = k then (if r.any (fun e => e.1 == k) then some v else none)
      else pyLookup r k' := by
  induction r with
  | nil => simp [pyLookup]
  | cons e r ih =>
    by_cases he : e.1 = k
    · by_cases hk : k' = k
      · subst hk
        simp only [pyLookup, List.map_cons, he, beq_self_eq_true, if_true, List.any_cons,
          Bool.true_or, if_pos rfl]
        rw [List.find?_cons_of_pos _ (by simp)]
        rfl
      · simp only [pyLookup, List.map_cons, he, beq_self_eq_true, if_true, if_neg hk]
        rw [List.find?_cons_of_neg _ (by simp [Ne.symm hk]),
          List.find?_cons_of_neg _ (by simp [he]; exact fun h => hk (h ▸ he ▸ rfl))]
        have := ih
        rw [if_neg hk] at this
        exact this
    · have hbe : (e.1 == k) = false := by simp [he]
      by_cases hek : e.1 = k'
      · have hk : ¬ k' = k := fun h => he (h ▸ hek)
        simp only [pyLookup, List.map_cons, hbe, if_false, if_neg hk]
        rw [List.find?_cons_of_pos _ (by simp [hek]), List.find?_cons_of_pos _ (by simp [hek])]
        simp
      · simp only [pyLookup, List.map_cons, hbe, if_false, List.any_cons, Bool.false_or]
        rw [List.find?_cons_of_neg _ (by simp [hek]), List.find?_cons_of_neg _ (by simp [hek])]
        exact ih

theorem findNoneOfAnyFalse (r : WideRow) (k : String)
    (h : r.any (fun e => e.1 == k) = false) : r.find? (fun e => e.1 == k) = none :=
  List.find?_eq_none.mpr (List.any_eq_false.mp h)

theorem lookup_setEntry (r : WideRow) (k v k' : String) :
    pyLookup (setEntry r k v) k' = if k' = k then some v else pyLookup r k' := by
  unfold setEntry
  by_cases h : r.any (fun e => e.1 == k)
  · rw [if_pos h, lookupMapped, h]
    simp
  · rw [if_neg (by simp [h])]
    by_cases hk : k' = k
    · subst hk
      simp only [pyLookup, List.find?_append, if_pos rfl,
        findNoneOfAnyFalse r k' (Bool.eq_false_iff.mpr h)]
      simp
    · rw [if_neg hk]
      simp only [pyLookup, List.find?_append]
      rw [show (List.find? (fun e => e.1 == k') [(k, v)]) = none from by simp [Ne.symm hk]]
      simp

theorem qcol_one : qcol 1 = "Question 1" := rfl
theorem qcol_two : qcol 2 = "Question 2" := rfl
theorem qcol_three : qcol 3 = "Question 3" := rfl
theorem qcol_four : qcol 4 = "Question 4" := rfl
theorem qcol_five : qcol 5 = "Question 5" := rfl
theorem acol_one : acol 1 = "Answer 1" := rfl
theorem acol_two : acol 2 = "Answer 2" := rfl
theorem acol_three : acol 3 = "Answer 3" := rfl
theorem acol_four : acol 4 = "Answer 4" := rfl
theorem acol_five : acol 5 = "Answer 5" := rfl

theorem lookup_addQACols_q (r : WideRow) (i : Nat) (h1 : 1 ≤ i) (h5 : i ≤ 5) :
    pyLookup (addQACols r) (qcol i) = some "" := by
  interval_cases i <;>
    simp [addQACols, lookup_setEntry, qcol_one, qcol_two, qcol_three, qcol_four, qcol_five,
      acol_one, acol_two, acol_three, acol_four, acol_five]

theorem lookup_addQACols_a (r : WideRow) (i : Nat) (h1 : 1 ≤ i) (h5 : i ≤ 5) :
    pyLookup (addQACols r) (acol i) = some "" := by
  interval_cases i <;>
    simp [addQACols, lookup_setEntry, qcol_one, qcol_two, qcol_three, qcol_four, qcol_five,
      acol_one, acol_two, acol_three, acol_four, acol_five]

/- ----------------- helper lemmas: the long writer ----------------- -/

theorem longRows_foldl (batch : List (SeedPair × GenOutcome)) :
    ∀ init : List LongRow,
      batch.foldl
        (fun acc pr =>
          match pr.2 with
          | some qs =>
            if qs.isEmpty then acc
            else acc ++ qs.map (fun qa =>
              (⟨pr.1.category, pr.1.topic, pyGet qa "question", pyGet qa "answer"⟩ : LongRow))
          | none => acc)
        init =
      init ++ (batch.map (fun pr => longRowsOf pr.1 pr.2)).flatten := by
  induction batch with
  | nil => intro init; simp
  | cons pr rest ih =>
    intro init
    simp only [List.foldl_cons, List.map_cons, List.flatten]
    rw [ih]
    cases hres : pr.2 with
    | none => simp [longRowsOf]
    | some qs =>
      by_cases hq : qs.isEmpty <;> simp [longRowsOf, hq]

theorem longRows_eq (batch : List (SeedPair × GenOutcome)) :
    longRows batch = (batch.map (fun pr => longRowsOf pr.1 pr.2)).flatten := by
  have h := longRows_foldl batch []
  rw [List.nil_append] at h
  exact h

/-- C5: a pair whose generation call failed (a falsy qa_results, modelled
as none) contributes zero rows in the long layout and an all-empty QA
row in the wide layout, and the surrounding pairs of the batch are
processed exactly as they would be alone: the batch is never aborted. -/
theorem c5_failed_pair_isolated :
    ∀ (xs ys : List (SeedPair × GenOutcome)) (p : SeedPair)
      (wxs wys : List (WideRow × GenOutcome)) (r : WideRow),
      longRows (xs ++ (p, none) :: ys) = longRows xs ++ longRows ys ∧
      wideRows (wxs ++ (r, none) :: wys) = wideRows wxs ++ wideRow r none :: wideRows wys ∧
      (∀ i : Nat, 1 ≤ i → i ≤ 5 →
        pyLookup (wideRow r none) (qcol i) = some "" ∧
        pyLookup (wideRow r none) (acol i) = some "") := by
  intro xs ys p wxs wys r
  refine ⟨?_, ?_, ?_⟩
  · rw [longRows_eq, longRows_eq, longRows_eq]
    simp [longRowsOf]
  · simp [wideRows]
  · intro i h1 h5
    have hw : wideRow r none = addQACols r := rfl
    rw [hw]
    exact ⟨lookup_addQACols_q r i h1 h5, lookup_addQACols_a r i h1 h5⟩

/-- C5 witness: a one-pair failing batch yields no long rows, and the
wide row keeps its ten QA cells empty. -/
theorem c5_witness :
    longRows [((⟨"c", "t"⟩ : SeedPair), none)] = [] ∧
    pyLookup (wideRow [("Category", "X")] none) "Question 1" = some "" := by
  have h := c5_failed_pair_isolated [] [] ⟨"c", "t"⟩ [] [] [("Category", "X")]
  exact ⟨by simpa using h.1, by simpa [qcol_one] using (h.2.2 1 (by decide) (by decide)).1⟩

theorem lookup_addQACols_ql1 (r : WideRow) : pyLookup (addQACols r) "Question 1" = some "" := by
  simpa [qcol_one] using lookup_addQACols_q r 1 (by norm_num) (by norm_num)
theorem lookup_addQACols_ql2 (r : WideRow) : pyLookup (addQACols r) "Question 2" = some "" := by
  simpa [qcol_two] using lookup_addQACols_q r 2 (by norm_num) (by norm_num)
theorem lookup_addQACols_ql3 (r : WideRow) : pyLookup (addQACols r) "Question 3" = some "" := by
  simpa [qcol_three] using lookup_addQACols_q r 3 (by norm_num) (by norm_num)
theorem lookup_addQACols_ql4 (r : WideRow) : pyLookup (addQACols r) "Question 4" = some "" := by
  simpa [qcol_four] using lookup_addQACols_q r 4 (by norm_num) (by norm_num)
theorem lookup_addQACols_ql5 (r : WideRow) : pyLookup (addQACols r) "Question 5" = some "" := by
  simpa [qcol_five] using lookup_addQACols_q r 5 (by norm_num) (by norm_num)
theorem lookup_addQACols_al1 (r : WideRow) : pyLookup (addQACols r) "Answer 1" = some "" := by
  simpa [acol_one] using lookup_addQACols_a r 1 (by norm_num) (by norm_num)
theorem lookup_addQACols_al2 (r : WideRow) : pyLookup (addQACols r) "Answer 2" = some "" := by
  simpa [acol_two] using lookup_addQACols_a r 2 (by norm_num) (by norm_num)
theorem lookup_addQACols_al3 (r : WideRow) : pyLookup (addQACols r) "Answer 3" = some "" := by
  simpa [acol_three] using lookup_addQACols_a r 3 (by norm_num) (by norm_num)
theorem lookup_addQACols_al4 (r : WideRow) : pyLookup (addQACols r) "Answer 4" = some "" := by
  simpa [acol_four] using lookup_addQACols_a r 4 (by norm_num) (by norm_num)
theorem lookup_addQACols_al5 (r : WideRow) : pyLookup (addQACols r) "Answer 5" = some "" := by
  simpa [acol_five] using lookup_addQACols_a r 5 (by norm_num) (by norm_num)

theorem lookup_wideRow_q (r : WideRow) (res : GenOutcome) (j : Nat)
    (h1 : 1 ≤ j) (h5 : j ≤ 5) :
    pyLookup (wideRow r res) (qcol j) =
      some (pyGet (((res.getD []).take 5).getD (j - 1) []) "question") := by
  cases res with
  | none =>
    simpa [pyGet] using lookup_addQACols_q r j h1 h5
  | some qs =>
    rcases qs with _ | ⟨a, _ | ⟨b, _ | ⟨c, _ | ⟨d, _ | ⟨e, tail⟩⟩⟩⟩⟩ <;>
      interval_cases j <;>
      simp [wideRow, fillQA, List.enum, List.enumFrom, List.take, List.getD, lookup_setEntry,
        qcol_one, qcol_two, qcol_three, qcol_four, qcol_five,
        acol_one, acol_two, acol_three, acol_four, acol_five,
        lookup_addQACols_ql1, lookup_addQACols_ql2, lookup_addQACols_ql3,
        lookup_addQACols_ql4, lookup_addQACols_ql5, pyGet]

theorem lookup_wideRow_a (r : WideRow) (res : GenOutcome) (j : Nat)
    (h1 : 1 ≤ j) (h5 : j ≤ 5) :
    pyLookup (wideRow r res) (acol j) =
      some (pyGet (((res.getD []).take 5).getD (j - 1) []) "answer") := by
  cases res with
  | none =>
    simpa [pyGet] using lookup_addQACols_a r j h1 h5
  | some qs =>
    rcases qs with _ | ⟨a, _ | ⟨b, _ | ⟨c, _ | ⟨d, _ | ⟨e, tail⟩⟩⟩⟩⟩ <;>
      interval_cases j <;>
      simp [wideRow, fillQA, List.enum, List.enumFrom, List.take, List.getD, lookup_setEntry,
        qcol_one, qcol_two, qcol_three, qcol_four, qcol_five,
        acol_one, acol_two, acol_three, acol_four, acol_five,
        lookup_addQACols_al1, lookup_addQACols_al2, lookup_addQACols_al3,
        lookup_addQACols_al4, lookup_addQACols_al5, pyGet]

theorem length_longRowsOf (p : SeedPair) (res : GenOutcome) :
    (longRowsOf p res).length = (res.getD []).length := by
  cases res with
  | none => rfl
  | some qs =>
    by_cases h : qs.isEmpty
    · simp [longRowsOf, h, List.isEmpty_iff.mp h]
    · simp [longRowsOf, h]

/-- C6: the long layout emits exactly one row per decoded record (the
row count is the sum of the per-pair record counts, a failed or empty
pair counting zero), and the wide layout emits exactly one row per seed
row, each Question j / Answer j cell holding the field of the j-th of
the first five records and the empty string when no such record exists
(records past the fifth are discarded by the take). -/
theorem c6_layout_cardinalities :
    ∀ (batch : List (SeedPair × GenOutcome)) (wbatch : List (WideRow × GenOutcome))
      (r : WideRow) (res : GenOutcome) (j : Nat),
      (longRows batch).length = (batch.map (fun pr => (pr.2.getD []).length)).sum ∧
      (wideRows wbatch).length = wbatch.length ∧
      (1 ≤ j → j ≤ 5 →
        pyLookup (wideRow r res) (qcol j) =
          some (pyGet (((res.getD []).take 5).getD (j - 1) []) "question") ∧
        pyLookup (wideRow r res) (acol j) =
          some (pyGet (((res.getD []).take 5).getD (j - 1) []) "answer")) := by
  intro batch wbatch r res j
  refine ⟨?_, by simp [wideRows], fun h1 h5 =>
    ⟨lookup_wideRow_q r res j h1 h5, lookup_wideRow_a r res j h1 h5⟩⟩
  rw [longRows_eq, List.length_flatten, List.map_map]
  have hfun : (List.length ∘ fun pr : SeedPair × GenOutcome => longRowsOf pr.1 pr.2) =
      fun pr : SeedPair × GenOutcome => (pr.2.getD []).length := by
    funext pr
    exact length_longRowsOf pr.1 pr.2
  rw [hfun]

/-- C6 witness: a two-pair batch with three records on the first pair
and a failure on the second gives three long rows, and a wide row filled
from one record keeps slot two empty. -/
theorem c6_witness :
    (longRows [((⟨"c", "t"⟩ : SeedPair),
        some [[("question", "q1"), ("answer", "a1")],
          [("question", "q2"), ("answer", "a2")],
          [("question", "q3"), ("answer", "a3")]]),
      ((⟨"c2", "t2"⟩ : SeedPair), none)]).length = 3 ∧
    pyLookup (wideRow [("Category", "X")] (some [[("question", "q1"), ("answer", "a1")]]))
      "Question 2" = some "" := by
  have h := c6_layout_cardinalities
    [((⟨"c", "t"⟩ : SeedPair),
        some [[("question", "q1"), ("answer", "a1")],
          [("question", "q2"), ("answer", "a2")],
          [("question", "q3"), ("answer", "a3")]]),
      ((⟨"c2", "t2"⟩ : SeedPair), none)]
    [] [("Category", "X")] (some [[("question", "q1"), ("answer", "a1")]]) 2
  refine ⟨by rw [h.1]; rfl, ?_⟩
  have h2 := (h.2.2 (by norm_num) (by norm_num)).1
  rw [qcol_two] at h2
  rw [h2]
  rfl

/-- C9 (amended): the wide writer keeps the value of every original
column whose name is not one of the ten added QA column names; a column
that is named Question 1..5 or Answer 1..5 is overwritten (see the
counterexample). -/
theorem c9_frame_preserved :
    ∀ (row : WideRow) (res : GenOutcome) (k : String),
      k ∉ ["Question 1", "Question 2", "Question 3", "Question 4", "Question 5",
        "Answer 1", "Answer 2", "Answer 3", "Answer 4", "Answer 5"] →
      pyLookup (wideRow row res) k = pyLookup row k := by
  intro row res k hk
  simp only [List.mem_cons, List.mem_singleton, not_or] at hk
  obtain ⟨h1, h2, h3, h4, h5, h6, h7, h8, h9, h10⟩ := hk
  cases res with
  | none =>
    simp [wideRow, fillQA, addQACols, lookup_setEntry,
      qcol_one, qcol_two, qcol_three, qcol_four, qcol_five,
      acol_one, acol_two, acol_three, acol_four, acol_five,
      h1, h2, h3, h4, h5, h6, h7, h8, h9, h10]
  | some qs =>
    rcases qs with _ | ⟨a, _ | ⟨b, _ | ⟨c, _ | ⟨d, _ | ⟨e, tail⟩⟩⟩⟩⟩ <;>
      simp [wideRow, fillQA, addQACols, List.enum, List.enumFrom, List.take, lookup_setEntry,
        qcol_one, qcol_two, qcol_three, qcol_four, qcol_five,
        acol_one, acol_two, acol_three, acol_four, acol_five,
        h1, h2, h3, h4, h5, h6, h7, h8, h9, h10]

/-- C9 witness: the Category and Topic cells survive a filled wide row. -/
theorem c9_witness :
    pyLookup (wideRow [("Category", "X"), ("Topic", "Y")]
      (some [[("question", "q1"), ("answer", "a1")]])) "Topic" = some "Y" := by
  rw [c9_frame_preserved [("Category", "X"), ("Topic", "Y")]
    (some [[("question", "q1"), ("answer", "a1")]]) "Topic" (by decide)]
  rfl

/- ----------------- helper lemmas: strip is idempotent ----------------- -/

theorem stripL_eq_rdrop (l : List Char) :
    stripL l = (l.dropWhile pyWs).rdropWhile pyWs := rfl

theorem dropWhile_eq_self_of_append {p : Char → Bool} {l t : List Char}
    (hl : (l ++ t).dropWhile p = l ++ t) : l.dropWhile p = l := by
  rw [List.dropWhile_eq_self_iff] at hl ⊢
  intro hpos
  have h0 := hl (by simp; omega)
  rw [List.get_append _ hpos] at h0
  exact h0

theorem stripL_idem (l : List Char) : stripL (stripL l) = stripL l := by
  rw [stripL_eq_rdrop, stripL_eq_rdrop]
  obtain ⟨t, ht⟩ := List.rdropWhile_prefix pyWs (l.dropWhile pyWs)
  have hfix : ((l.dropWhile pyWs).rdropWhile pyWs).dropWhile pyWs =
      (l.dropWhile pyWs).rdropWhile pyWs := by
    apply dropWhile_eq_self_of_append (t := t)
    rw [ht]
    exact List.dropWhile_idempotent pyWs l
  rw [hfix, List.rdropWhile_idempotent]

theorem fbStep_inv (st : FbState) (line : List Char)
    (h1 : ∀ r ∈ st.1, stripL r.question.data = r.question.data ∧
      stripL r.answer.data = r.answer.data)
    (h2 : ∀ q, st.2.1 = some q → stripL q = q) :
    (∀ r ∈ (fbStep st line).1, stripL r.question.data = r.question.data ∧
      stripL r.answer.data = r.answer.data) ∧
    (∀ q, (fbStep st line).2.1 = some q → stripL q = q) := by
  rcases st with ⟨recs, qopt, ans⟩
  unfold fbStep
  by_cases hq : (startsWithL (stripL line) "Q".data || startsWithL (stripL line) "Question".data) = true
  · rw [if_pos hq]
    cases qopt with
    | none =>
      cases hsp : splitAtFirst line ':' with
      | none => exact ⟨h1, h2⟩
      | some p =>
        refine ⟨h1, fun q hqq => ?_⟩
        simp only [Option.some_inj] at hqq
        rw [← hqq]
        exact stripL_idem p.2
    | some q0 =>
      have hq0 : stripL q0 = q0 := h2 q0 rfl
      have hnew : ∀ r ∈ recs ++ [(⟨String.mk q0, String.mk (stripL ans)⟩ : QARecord)],
          stripL r.question.data = r.question.data ∧ stripL r.answer.data = r.answer.data := by
        intro r hr
        rcases List.mem_append.mp hr with h | h
        · exact h1 r h
        · rcases List.mem_singleton.mp h with rfl
          exact ⟨hq0, stripL_idem ans⟩
      cases hsp : splitAtFirst line ':' with
      | none => exact ⟨hnew, fun q hqq => h2 q hqq⟩
      | some p =>
        refine ⟨hnew, fun q hqq => ?_⟩
        simp only [Option.some_inj] at hqq
        rw [← hqq]
        exact stripL_idem p.2
  · rw [if_neg hq]
    by_cases ha : (startsWithL (stripL line) "A".data || startsWithL (stripL line) "Answer".data) = true
    · rw [if_pos ha]
      cases hsp : splitAtFirst line ':' with
      | none => exact ⟨h1, h2⟩
      | some p => exact ⟨h1, h2⟩
    · rw [if_neg ha]
      by_cases hs : qopt.isSome
      · rw [if_pos hs]
        exact ⟨h1, h2⟩
      · rw [if_neg hs]
        exact ⟨h1, h2⟩

theorem foldl_fbStep_inv (lines : List (List Char)) :
    ∀ st : FbState,
      (∀ r ∈ st.1, stripL r.question.data = r.question.data ∧
        stripL r.answer.data = r.answer.data) →
      (∀ q, st.2.1 = some q → stripL q = q) →
      (∀ r ∈ (lines.foldl fbStep st).1, stripL r.question.data = r.question.data ∧
        stripL r.answer.data = r.answer.data) ∧
      (∀ q, (lines.foldl fbStep st).2.1 = some q → stripL q = q) := by
  induction lines with
  | nil => intro st h1 h2; exact ⟨h1, h2⟩
  | cons l rest ih =>
    intro st h1 h2
    have h := fbStep_inv st l h1 h2
    exact ih (fbStep st l) h.1 h.2

/-- C3 (amended): the parser performs no emptiness filtering at all (see
the counterexample, where a record that is empty after trimming is kept,
and C2, where structured-path records are returned exactly as decoded);
what does hold is that every record the fallback path emits carries a
whitespace-trimmed question and a whitespace-trimmed answer, both
possibly empty. -/
theorem c3_fallback_records_trimmed :
    ∀ (text : String) (r : QARecord), r ∈ fallbackRecords text.data →
      stripL r.question.data = r.question.data ∧
      stripL r.answer.data = r.answer.data := by
  intro text r hr
  unfold fallbackRecords at hr
  have hinv := foldl_fbStep_inv (splitLines text.data) ([], none, [])
    (by simp) (by simp)
  rcases List.mem_append.mp hr with h | h
  · exact hinv.1 r h
  · rcases hfin : ((splitLines text.data).foldl fbStep ([], none, [])).2.1 with _ | q0
    · rw [hfin] at h
      simp at h
    · rw [hfin] at h
      rcases List.mem_singleton.mp h with rfl
      exact ⟨hinv.2 q0 hfin, stripL_idem _⟩

/-- C3 witness: the record recovered from a small fallback text is
trim-invariant in both fields. -/
theorem c3_witness :
    stripL (String.data "hi") = String.data "hi" ∧
    stripL (String.data "yo") = String.data "yo" := by
  have h := c3_fallback_records_trimmed "Q: hi\nA: yo" ⟨"hi", "yo"⟩ (by decide)
  exact ⟨h.1, h.2⟩

/-- C4 (amended): parse is total and a stage-1 decode format error
always degrades to the heuristic fallback, whose result is an ordered
(possibly empty) array of records; however, when the stage-1 decode
succeeds the decoded value is returned as-is, and via the whole-text
path it need not be a sequence (see the counterexample returning a bare
number). -/
theorem c4_parse_total_fallback :
    ∀ (text : String) (n : Nat),
      (jsonLoads (stage1Target text.data) = none →
        parseResponse text n = fallbackJson text.data n ∧
          (parseResponse text n).isArr = true) ∧
      (∀ v, jsonLoads (stage1Target text.data) = some v → parseResponse text n = v) := by
  intro text n
  by_cases h : (findIdx text.data '[' ≠ -1 ∧ rfindIdx text.data ']' + 1 ≠ -1)
  · constructor
    · intro hnone
      simp only [stage1Target, if_pos h] at hnone
      constructor
      · simp [parseResponse, h, hnone]
      · simp [parseResponse, h, hnone, fallbackJson, Json.isArr]
    · intro v hv
      simp only [stage1Target, if_pos h] at hv
      simp [parseResponse, h, hv]
  · constructor
    · intro hnone
      simp only [stage1Target, if_neg h] at hnone
      constructor
      · simp [parseResponse, h, hnone]
      · simp [parseResponse, h, hnone, fallbackJson, Json.isArr]
    · intro v hv
      simp only [stage1Target, if_neg h] at hv
      simp [parseResponse, h, hv]

/-- C4 witness: on a text whose stage-1 decode fails, parse equals the
fallback result, an array. -/
theorem c4_witness :
    parseResponse "Q: hi\nA: yo" 5 = fallbackJson (String.data "Q: hi\nA: yo") 5 ∧
    (parseResponse "Q: hi\nA: yo" 5).isArr = true :=
  (c4_parse_total_fallback "Q: hi\nA: yo" 5).1 rfl

theorem findIdx_not_mem (cs : List Char) (c : Char) (h : c ∉ cs) : findIdx cs c = -1 := by
  induction cs with
  | nil => rfl
  | cons x xs ih =>
    simp only [List.mem_cons, not_or] at h
    simp [findIdx, Ne.symm h.1, ih h.2]

theorem stripL_cons_ws (c : Char) (l : List Char) (hc : pyWs c = true) :
    stripL (c :: l) = stripL l := by
  unfold stripL
  rw [List.dropWhile_cons, if_pos hc]

theorem stripL_head (c : Char) (t : List Char) (hc : pyWs c = false) :
    ∃ t2, stripL (c :: t) = c :: t2 := by
  rw [stripL_eq_rdrop, List.dropWhile_cons, if_neg (by simp [hc])]
  have hne : (c :: t).rdropWhile pyWs ≠ [] := by
    rw [Ne, List.rdropWhile_eq_nil_iff]
    intro hall
    have := hall c (by simp)
    simp [hc] at this
  obtain ⟨u, hu⟩ := List.rdropWhile_prefix pyWs (c :: t)
  rcases hr : (c :: t).rdropWhile pyWs with _ | ⟨r, rs⟩
  · exact absurd hr hne
  · rw [hr] at hu
    refine ⟨rs, ?_⟩
    have : r = c := by
      have := hu
      simp only [List.cons_append] at this
      exact (List.cons.injEq _ _ _ _ ▸ this).1
    rw [this]

theorem splitAtFirst_append (xs ys : List Char) (sep : Char) (h : sep ∉ xs) :
    splitAtFirst (xs ++ sep :: ys) sep = some (xs, ys) := by
  induction xs with
  | nil => simp [splitAtFirst]
  | cons x xs ih =>
    simp only [List.mem_cons, not_or] at h
    simp [splitAtFirst, Ne.symm h.1, ih h.2]

theorem splitLines_no_newline (xs : List Char) (h : '\n' ∉ xs) : splitLines xs = [xs] := by
  induction xs with
  | nil => rfl
  | cons x xs ih =>
    simp only [List.mem_cons, not_or] at h
    simp [splitLines, Ne.symm h.1, ih h.2]

theorem splitLines_append_newline (xs ys : List Char) (h : '\n' ∉ xs) :
    splitLines (xs ++ '\n' :: ys) = xs :: splitLines ys := by
  induction xs with
  | nil => simp [splitLines]
  | cons x xs ih =>
    simp only [List.mem_cons, not_or] at h
    simp [splitLines, Ne.symm h.1, ih h.2]

theorem parseValue_q_head (f : Nat) (t : List Char) : parseValue f ('Q' :: t) = none := by
  cases f with
  | zero => rfl
  | succ f =>
    have hskip : skipWs ('Q' :: t) = 'Q' :: t := by
      simp [skipWs, List.dropWhile_cons, jsonWs]
    simp [parseValue, hskip, parseKeyword, startsWithL]

theorem jsonLoads_q_head (t : List Char) : jsonLoads ('Q' :: t) = none := by
  simp [jsonLoads, parseValue_q_head]

theorem renderQA_cons_eq (p : List Char × List Char) (rest : List (List Char × List Char)) :
    ∃ t, renderQA (p :: rest) = 'Q' :: t := by
  cases rest with
  | nil => exact ⟨("uestion: ".data ++ p.1 ++ '\n' :: ("Answer: ".data ++ p.2)), by
      show renderPair p.1 p.2 = _
      simp [renderPair]⟩
  | cons p2 rest2 =>
    exact ⟨("uestion: ".data ++ p.1 ++ '\n' :: ("Answer: ".data ++ p.2)) ++
      '\n' :: renderQA (p2 :: rest2), by
      show renderPair p.1 p.2 ++ _ = _
      simp [renderPair]⟩

theorem not_mem_renderPair (c : Char) (q a : List Char)
    (hc1 : c ∉ "Question: ".data) (hc2 : c ∉ "Answer: ".data) (hc3 : c ≠ '\n')
    (hq : c ∉ q) (ha : c ∉ a) : c ∉ renderPair q a := by
  intro hmem
  unfold renderPair at hmem
  rcases List.mem_append.mp hmem with h1 | h1
  · rcases List.mem_append.mp h1 with h2 | h2
    · exact hc1 h2
    · exact hq h2
  · rcases List.mem_cons.mp h1 with h3 | h3
    · exact hc3 h3
    · rcases List.mem_append.mp h3 with h4 | h4
      · exact hc2 h4
      · exact ha h4

theorem not_mem_renderQA (c : Char) (ps : List (List Char × List Char))
    (hc1 : c ∉ "Question: ".data) (hc2 : c ∉ "Answer: ".data) (hc3 : c ≠ '\n')
    (h : ∀ pr ∈ ps, c ∉ pr.1 ∧ c ∉ pr.2) : c ∉ renderQA ps := by
  induction ps with
  | nil => simp [renderQA]
  | cons p rest ih =>
    have hp := h p (by simp)
    cases rest with
    | nil =>
      show c ∉ renderPair p.1 p.2
      exact not_mem_renderPair c p.1 p.2 hc1 hc2 hc3 hp.1 hp.2
    | cons p2 rest2 =>
      show c ∉ renderPair p.1 p.2 ++ '\n' :: renderQA (p2 :: rest2)
      intro hmem
      rcases List.mem_append.mp hmem with h1 | h1
      · exact not_mem_renderPair c p.1 p.2 hc1 hc2 hc3 hp.1 hp.2 h1
      · rcases List.mem_cons.mp h1 with h3 | h3
        · exact hc3 h3
        · exact ih (fun pr hpr => h pr (by simp [hpr])) h3

def emitOpt (qb : Option (List Char)) (ab : List Char) : List QARecord :=
  match qb with
  | some q0 => [⟨String.mk q0, String.mk (stripL ab)⟩]
  | none => []

theorem fbStep_qline (recs : List QARecord) (qb : Option (List Char)) (ab q : List Char)
    (hq : stripL q = q) :
    fbStep (recs, qb, ab) ("Question: ".data ++ q) =
      (recs ++ emitOpt qb ab, some q, []) := by
  have hall : ("Question: ".data ++ q) =
      'Q' :: 'u' :: 'e' :: 's' :: 't' :: 'i' :: 'o' :: 'n' :: ':' :: ' ' :: q := rfl
  obtain ⟨t2, ht2⟩ := stripL_head 'Q'
    ('u' :: 'e' :: 's' :: 't' :: 'i' :: 'o' :: 'n' :: ':' :: ' ' :: q) (by decide)
  have hsplit : splitAtFirst
      ('Q' :: 'u' :: 'e' :: 's' :: 't' :: 'i' :: 'o' :: 'n' :: ':' :: ' ' :: q) ':' =
      some ("Question".data, ' ' :: q) :=
    splitAtFirst_append "Question".data (' ' :: q) ':' (by decide)
  have hstrip : stripL (' ' :: q) = q := by
    rw [stripL_cons_ws ' ' q (by decide), hq]
  rw [hall]
  cases qb with
  | none => simp [fbStep, ht2, startsWithL, hsplit, hstrip, emitOpt]
  | some q0 => simp [fbStep, ht2, startsWithL, hsplit, hstrip, emitOpt]

theorem fbStep_aline (recs : List QARecord) (qb : Option (List Char)) (ab a : List Char)
    (ha : stripL a = a) :
    fbStep (recs, qb, ab) ("Answer: ".data ++ a) = (recs, qb, a) := by
  have hall : ("Answer: ".data ++ a) =
      'A' :: 'n' :: 's' :: 'w' :: 'e' :: 'r' :: ':' :: ' ' :: a := rfl
  obtain ⟨t2, ht2⟩ := stripL_head 'A'
    ('n' :: 's' :: 'w' :: 'e' :: 'r' :: ':' :: ' ' :: a) (by decide)
  have hsplit : splitAtFirst ('A' :: 'n' :: 's' :: 'w' :: 'e' :: 'r' :: ':' :: ' ' :: a) ':' =
      some ("Answer".data, ' ' :: a) :=
    splitAtFirst_append "Answer".data (' ' :: a) ':' (by decide)
  have hstrip : stripL (' ' :: a) = a := by
    rw [stripL_cons_ws ' ' a (by decide), ha]
  rw [hall]
  simp [fbStep, ht2, startsWithL, hsplit, hstrip]

def goodPair (pr : List Char × List Char) : Prop :=
  stripL pr.1 = pr.1 ∧ stripL pr.2 = pr.2 ∧ '\n' ∉ pr.1 ∧ '\n' ∉ pr.2

theorem foldl_renderQA (ps : List (List Char × List Char)) :
    ∀ (p : List Char × List Char) (recs : List QARecord) (qb : Option (List Char)) (ab : List Char),
      goodPair p → (∀ pr ∈ ps, goodPair pr) →
      (splitLines (renderQA (p :: ps))).foldl fbStep (recs, qb, ab) =
        (recs ++ emitOpt qb ab ++
          ((p :: ps).dropLast).map (fun pr => (⟨String.mk pr.1, String.mk pr.2⟩ : QARecord)),
         some ((p :: ps).getLast (by simp)).1,
         ((p :: ps).getLast (by simp)).2) := by
  induction ps with
  | nil =>
    intro p recs qb ab hp _
    have hq : '\n' ∉ "Question: ".data ++ p.1 := by
      intro hm
      rcases List.mem_append.mp hm with h | h
      · revert h
        decide
      · exact hp.2.2.1 h
    have ha : '\n' ∉ "Answer: ".data ++ p.2 := by
      intro hm
      rcases List.mem_append.mp hm with h | h
      · revert h
        decide
      · exact hp.2.2.2 h
    have hsplitL : splitLines (renderQA [p]) =
        [("Question: ".data ++ p.1), ("Answer: ".data ++ p.2)] := by
      show splitLines (("Question: ".data ++ p.1) ++ '\n' :: ("Answer: ".data ++ p.2)) = _
      rw [splitLines_append_newline _ _ hq, splitLines_no_newline _ ha]
    rw [hsplitL, List.foldl_cons, List.foldl_cons, List.foldl_nil,
      fbStep_qline recs qb ab p.1 hp.1, fbStep_aline _ _ _ _ hp.2.1]
    simp
  | cons p2 rest ih =>
    intro p recs qb ab hp hps
    have hp2 := hps p2 (by simp)
    have hq : '\n' ∉ "Question: ".data ++ p.1 := by
      intro hm
      rcases List.mem_append.mp hm with h | h
      · revert h
        decide
      · exact hp.2.2.1 h
    have ha : '\n' ∉ "Answer: ".data ++ p.2 := by
      intro hm
      rcases List.mem_append.mp hm with h | h
      · revert h
        decide
      · exact hp.2.2.2 h
    have hsplitL : splitLines (renderQA (p :: p2 :: rest)) =
        ("Question: ".data ++ p.1) :: ("Answer: ".data ++ p.2) ::
          splitLines (renderQA (p2 :: rest)) := by
      show splitLines ((("Question: ".data ++ p.1) ++ '\n' :: ("Answer: ".data ++ p.2)) ++
        '\n' :: renderQA (p2 :: rest)) = _
      have e1 : ((("Question: ".data ++ p.1) ++ '\n' :: ("Answer: ".data ++ p.2)) ++
          '\n' :: renderQA (p2 :: rest)) =
          ("Question: ".data ++ p.1) ++
            '\n' :: (("Answer: ".data ++ p.2) ++ '\n' :: renderQA (p2 :: rest)) := by
        simp [List.append_assoc]
      rw [e1, splitLines_append_newline _ _ hq, splitLines_append_newline _ _ ha]
    rw [hsplitL, List.foldl_cons, List.foldl_cons,
      fbStep_qline recs qb ab p.1 hp.1, fbStep_aline _ _ _ _ hp.2.1,
      ih p2 (recs ++ emitOpt qb ab) (some p.1) p.2 hp2
        (fun pr hpr => hps pr (by simp [hpr]))]
    have hemit : emitOpt (some p.1) p.2 = [⟨String.mk p.1, String.mk p.2⟩] := by
      simp [emitOpt, hp.2.1]
    rw [hemit]
    simp [List.getLast]

theorem fallbackRecords_renderQA (ps : List (List Char × List Char))
    (hall : ∀ pr ∈ ps, goodPair pr) :
    fallbackRecords (renderQA ps) =
      ps.map (fun pr => (⟨String.mk pr.1, String.mk pr.2⟩ : QARecord)) := by
  cases ps with
  | nil => rfl
  | cons p rest =>
    unfold fallbackRecords
    rw [foldl_renderQA rest p [] none [] (hall p (by simp))
      (fun pr hpr => hall pr (by simp [hpr]))]
    have hlast : (p :: rest).getLast (by simp) ∈ p :: rest := List.getLast_mem _
    have hg := hall _ hlast
    simp only [emitOpt, List.append_nil, List.nil_append, hg.2.1]
    conv_rhs => rw [← List.dropLast_append_getLast (show p :: rest ≠ [] by simp)]
    rw [List.map_append]
    rfl


/-- C7: for a text made of alternating Question / Answer lines with no
bracket markers, parse falls back to the line scanner and recovers one
record per line pair (truncated to expected_count, as the fallback
always is), and on the concrete three-line input with a continuation
line the answer lines are joined with single spaces. -/
theorem c7_fallback_alternating :
    (∀ (ps : List (List Char × List Char)) (n : Nat),
      (∀ pr ∈ ps, stripL pr.1 = pr.1 ∧ stripL pr.2 = pr.2 ∧ '\n' ∉ pr.1 ∧ '\n' ∉ pr.2 ∧
        '[' ∉ pr.1 ∧ '[' ∉ pr.2) →
      parseResponse (String.mk (renderQA ps)) n =
        Json.arr ((ps.take n).map (fun pr => objQA (String.mk pr.1) (String.mk pr.2)))) ∧
    parseResponse "Q: What year?\nA: 1200s\nMore detail here." 5 =
      Json.arr [objQA "What year?" "1200s More detail here."] := by
  constructor
  · intro ps n hps
    have hnb : '[' ∉ renderQA ps := not_mem_renderQA '[' ps (by decide) (by decide) (by decide)
      (fun pr hpr => ⟨(hps pr hpr).2.2.2.2.1, (hps pr hpr).2.2.2.2.2⟩)
    have hfind : findIdx (renderQA ps) '[' = -1 := findIdx_not_mem _ _ hnb
    have hload : jsonLoads (renderQA ps) = none := by
      cases ps with
      | nil => rfl
      | cons p rest =>
        obtain ⟨t, ht⟩ := renderQA_cons_eq p rest
        rw [ht]
        exact jsonLoads_q_head t
    have hgood : ∀ pr ∈ ps, goodPair pr := fun pr hpr =>
      ⟨(hps pr hpr).1, (hps pr hpr).2.1, (hps pr hpr).2.2.1, (hps pr hpr).2.2.2.1⟩
    have hdata : (String.mk (renderQA ps)).data = renderQA ps := rfl
    unfold parseResponse
    rw [hdata, hfind]
    simp only [ne_eq, not_true_eq_false, false_and, if_false, hload]
    unfold fallbackJson
    rw [fallbackRecords_renderQA ps hgood]
    rw [← List.map_take, List.map_map]
    rfl
  · rfl

/-- C7 witness: the universal part applied to one question/answer pair. -/
theorem c7_witness :
    parseResponse (String.mk (renderQA [("What".data, "1200".data)])) 5 =
      Json.arr [objQA "What" "1200"] := by
  have h := (c7_fallback_alternating.1) [("What".data, "1200".data)] 5 (by decide)
  simpa using h

theorem psb_safe (content : List Char) :
    ∀ (acc tail : List Char), content.all safeChar = true →
      parseStringBody (content ++ '"' :: tail) acc =
        some (String.mk (acc.reverse ++ content), tail) := by
  induction content with
  | nil =>
    intro acc tail _
    simp only [List.nil_append, List.append_nil]
    rw [parseStringBody.eq_def]
    simp
  | cons c cs ih =>
    intro acc tail hsafe
    simp only [List.all_cons, Bool.and_eq_true] at hsafe
    have hc := hsafe.1
    simp only [safeChar, Bool.and_eq_true, bne_iff_ne, ne_eq, decide_eq_true_eq] at hc
    rw [List.cons_append]
    rw [show parseStringBody (c :: (cs ++ '"' :: tail)) acc =
      parseStringBody (cs ++ '"' :: tail) (c :: acc) from by
        rw [parseStringBody.eq_def]
        simp [hc.1.1, hc.1.2, Nat.not_lt.mpr hc.2]]
    rw [ih (c :: acc) tail hsafe.2]
    simp

theorem pv_str (f : Nat) (content tail : List Char) (hsafe : content.all safeChar = true) :
    parseValue (f + 1) ('"' :: (content ++ '"' :: tail)) =
      some (Json.str (String.mk content), tail) := by
  have hskip : skipWs ('"' :: (content ++ '"' :: tail)) = '"' :: (content ++ '"' :: tail) := by
    simp [skipWs, List.dropWhile_cons, jsonWs]
  rw [show f + 1 = Nat.succ f from rfl]
  simp only [parseValue, hskip]
  rw [psb_safe content [] tail hsafe]
  simp

theorem skipWs_cons_nonws (c : Char) (t : List Char) (h : jsonWs c = false) :
    skipWs (c :: t) = c :: t := by
  simp [skipWs, List.dropWhile_cons, h]

theorem pv_encRec (f : Nat) (r : QARecord) (tail : List Char) (hr : safeRec r = true) :
    parseValue (f + 4) (encRec r ++ tail) = some (objQA r.question r.answer, tail) := by
  have hqa : r.question.data.all safeChar = true ∧ r.answer.data.all safeChar = true := by
    simpa [safeRec, safeStr, Bool.and_eq_true] using hr
  have hshape : encRec r ++ tail =
      '\x7b' :: '"' :: 'q' :: 'u' :: 'e' :: 's' :: 't' :: 'i' :: 'o' :: 'n' :: '"' :: ':' :: '"' ::
        (r.question.data ++ '"' :: ',' :: '"' :: 'a' :: 'n' :: 's' :: 'w' :: 'e' :: 'r' :: '"' ::
          ':' :: '"' :: (r.answer.data ++ '"' :: '\x7d' :: tail)) := by
    simp [encRec, List.append_assoc]
  have hkey1 : parseStringBody
      ('q' :: 'u' :: 'e' :: 's' :: 't' :: 'i' :: 'o' :: 'n' ::
        ('"' :: ':' :: '"' :: (r.question.data ++ '"' :: ',' :: '"' :: 'a' :: 'n' :: 's' :: 'w' ::
          'e' :: 'r' :: '"' :: ':' :: '"' :: (r.answer.data ++ '"' :: '\x7d' :: tail)))) [] =
      some (String.mk ['q', 'u', 'e', 's', 't', 'i', 'o', 'n'],
        ':' :: '"' :: (r.question.data ++ '"' :: ',' :: '"' :: 'a' :: 'n' :: 's' :: 'w' ::
          'e' :: 'r' :: '"' :: ':' :: '"' :: (r.answer.data ++ '"' :: '\x7d' :: tail))) := by
    have h := psb_safe ['q', 'u', 'e', 's', 't', 'i', 'o', 'n']
      []
      (':' :: '"' :: (r.question.data ++ '"' :: ',' :: '"' :: 'a' :: 'n' :: 's' :: 'w' ::
        'e' :: 'r' :: '"' :: ':' :: '"' :: (r.answer.data ++ '"' :: '\x7d' :: tail)))
      (by decide)
    simpa using h
  have s0 : parseValue (f + 4) (encRec r ++ tail) = parseObjItems (f + 3)
      ('"' :: 'q' :: 'u' :: 'e' :: 's' :: 't' :: 'i' :: 'o' :: 'n' :: '"' :: ':' :: '"' ::
        (r.question.data ++ '"' :: ',' :: '"' :: 'a' :: 'n' :: 's' :: 'w' :: 'e' :: 'r' :: '"' ::
          ':' :: '"' :: (r.answer.data ++ '"' :: '\x7d' :: tail))) [] := by
    rw [hshape, show f + 4 = Nat.succ (f + 3) from rfl, parseValue.eq_def]
    simp [skipWs, List.dropWhile_cons, jsonWs]
  have hv1 : parseValue (f + 2)
      ('"' :: (r.question.data ++ '"' :: ',' :: '"' :: 'a' :: 'n' :: 's' :: 'w' :: 'e' :: 'r' ::
        '"' :: ':' :: '"' :: (r.answer.data ++ '"' :: '\x7d' :: tail))) =
      some (Json.str (String.mk r.question.data),
        ',' :: '"' :: 'a' :: 'n' :: 's' :: 'w' :: 'e' :: 'r' :: '"' :: ':' :: '"' ::
          (r.answer.data ++ '"' :: '\x7d' :: tail)) := by
    have h := pv_str (f + 1) r.question.data
      (',' :: '"' :: 'a' :: 'n' :: 's' :: 'w' :: 'e' :: 'r' :: '"' :: ':' :: '"' ::
        (r.answer.data ++ '"' :: '\x7d' :: tail)) hqa.1
    simpa using h
  have hkey2 : parseStringBody
      ('a' :: 'n' :: 's' :: 'w' :: 'e' :: 'r' ::
        ('"' :: ':' :: '"' :: (r.answer.data ++ '"' :: '\x7d' :: tail))) [] =
      some (String.mk ['a', 'n', 's', 'w', 'e', 'r'],
        ':' :: '"' :: (r.answer.data ++ '"' :: '\x7d' :: tail)) := by
    have h := psb_safe ['a', 'n', 's', 'w', 'e', 'r'] []
      (':' :: '"' :: (r.answer.data ++ '"' :: '\x7d' :: tail)) (by decide)
    simpa using h
  have hv2 : parseValue (f + 1) ('"' :: (r.answer.data ++ '"' :: '\x7d' :: tail)) =
      some (Json.str (String.mk r.answer.data), '\x7d' :: tail) :=
    pv_str f r.answer.data ('\x7d' :: tail) hqa.2
  have s1 : parseObjItems (f + 3)
      ('"' :: 'q' :: 'u' :: 'e' :: 's' :: 't' :: 'i' :: 'o' :: 'n' :: '"' :: ':' :: '"' ::
        (r.question.data ++ '"' :: ',' :: '"' :: 'a' :: 'n' :: 's' :: 'w' :: 'e' :: 'r' :: '"' ::
          ':' :: '"' :: (r.answer.data ++ '"' :: '\x7d' :: tail))) [] =
      parseObjItems (f + 2)
        ('"' :: 'a' :: 'n' :: 's' :: 'w' :: 'e' :: 'r' :: '"' :: ':' :: '"' ::
          (r.answer.data ++ '"' :: '\x7d' :: tail))
        [(String.mk ['q', 'u', 'e', 's', 't', 'i', 'o', 'n'], Json.str (String.mk r.question.data))] := by
    rw [show f + 3 = Nat.succ (f + 2) from rfl, parseObjItems.eq_def]
    simp [skipWs, List.dropWhile_cons, jsonWs, hkey1, hv1]
  have s2 : parseObjItems (f + 2)
      ('"' :: 'a' :: 'n' :: 's' :: 'w' :: 'e' :: 'r' :: '"' :: ':' :: '"' ::
        (r.answer.data ++ '"' :: '\x7d' :: tail))
      [(String.mk ['q', 'u', 'e', 's', 't', 'i', 'o', 'n'], Json.str (String.mk r.question.data))] =
      some (Json.obj [(String.mk ['q', 'u', 'e', 's', 't', 'i', 'o', 'n'],
          Json.str (String.mk r.question.data)),
        (String.mk ['a', 'n', 's', 'w', 'e', 'r'], Json.str (String.mk r.answer.data))], tail) := by
    rw [show f + 2 = Nat.succ (f + 1) from rfl, parseObjItems.eq_def]
    simp [skipWs, List.dropWhile_cons, jsonWs, hkey2, hv2]
  rw [s0, s1, s2]
  rfl

theorem parseArrItems_enc (R : List QARecord) :
    ∀ (r : QARecord) (f : Nat) (acc : List Json),
      safeRec r = true → R.all safeRec = true →
      parseArrItems (5 * R.length + f + 5) (encItems (r :: R) ++ [']']) acc =
        some (Json.arr (acc.reverse ++
          (r :: R).map (fun x => objQA x.question x.answer)), []) := by
  induction R with
  | nil =>
    intro r f acc hr _
    rw [show 5 * ([] : List QARecord).length + f + 5 = Nat.succ (f + 4) from by simp only [List.length_nil]; omega]
    rw [show encItems [r] = encRec r from rfl]
    rw [parseArrItems.eq_def]
    have hv := pv_encRec f r [']'] hr
    simp [hv, skipWs, List.dropWhile_cons, jsonWs]
  | cons r2 Rtl ih =>
    intro r f acc hr hall
    simp only [List.all_cons, Bool.and_eq_true] at hall
    rw [show encItems (r :: r2 :: Rtl) = encRec r ++ ',' :: encItems (r2 :: Rtl) from rfl]
    rw [show 5 * (r2 :: Rtl).length + f + 5 = Nat.succ (5 * Rtl.length + f + 9) from by
      simp [List.length_cons]
      omega]
    rw [parseArrItems.eq_def]
    have hshape2 : (encRec r ++ ',' :: encItems (r2 :: Rtl)) ++ [']'] =
        encRec r ++ (',' :: (encItems (r2 :: Rtl) ++ [']'])) := by simp
    have hv : parseValue (5 * Rtl.length + f + 9)
        (encRec r ++ (',' :: (encItems (r2 :: Rtl) ++ [']']))) =
        some (objQA r.question r.answer, ',' :: (encItems (r2 :: Rtl) ++ [']'])) := by
      have h := pv_encRec (5 * Rtl.length + f + 5) r
        (',' :: (encItems (r2 :: Rtl) ++ [']'])) hr
      rw [show 5 * Rtl.length + f + 5 + 4 = 5 * Rtl.length + f + 9 from by omega] at h
      exact h
    rw [hshape2]
    have hih := ih r2 (f + 4) (objQA r.question r.answer :: acc) hall.1 hall.2
    rw [show 5 * Rtl.length + (f + 4) + 5 = 5 * Rtl.length + f + 9 from by omega] at hih
    simp [hv, hih, skipWs, List.dropWhile_cons, jsonWs]

theorem encRec_len (r : QARecord) :
    (encRec r).length = 27 + r.question.data.length + r.answer.data.length := by
  simp only [encRec, List.length_append,
    show ("\x7b\"question\":\"").data.length = 13 from rfl,
    show ("\",\"answer\":\"").data.length = 12 from rfl,
    show ("\"\x7d").data.length = 2 from rfl]
  omega

theorem encItems_length_ge (R : List QARecord) :
    ∀ r : QARecord, 3 * (r :: R).length ≤ (encItems (r :: R)).length := by
  induction R with
  | nil =>
    intro r
    rw [show encItems [r] = encRec r from rfl, encRec_len]
    simp
    omega
  | cons r2 Rtl ih =>
    intro r
    rw [show encItems (r :: r2 :: Rtl) = encRec r ++ ',' :: encItems (r2 :: Rtl) from rfl]
    have h2 := ih r2
    simp only [List.length_append, List.length_cons, encRec_len] at *
    omega

theorem jsonLoads_encodeRecords (R : List QARecord) (hall : R.all safeRec = true) :
    jsonLoads (encodeRecords R) =
      some (Json.arr (R.map (fun x => objQA x.question x.answer))) := by
  cases R with
  | nil => rfl
  | cons r Rtl =>
    simp only [List.all_cons, Bool.and_eq_true] at hall
    have hlen : (encodeRecords (r :: Rtl)).length = (encItems (r :: Rtl)).length + 2 := by
      simp [encodeRecords]
    have hge := encItems_length_ge Rtl r
    have hbrace : ∃ t, encItems (r :: Rtl) ++ [']'] = '\x7b' :: t := by
      cases Rtl with
      | nil => exact ⟨_, rfl⟩
      | cons r2 R2 => exact ⟨_, rfl⟩
    obtain ⟨t, ht⟩ := hbrace
    have hf : 2 * (encodeRecords (r :: Rtl)).length + 1 =
        5 * Rtl.length + (2 * (encodeRecords (r :: Rtl)).length - 5 * Rtl.length - 4) + 5 := by
      simp only [List.length_cons] at hge
      omega
    have harr := parseArrItems_enc Rtl r
      (2 * (encodeRecords (r :: Rtl)).length - 5 * Rtl.length - 4) [] hall.1 hall.2
    unfold jsonLoads
    rw [show encodeRecords (r :: Rtl) = '[' :: (encItems (r :: Rtl) ++ [']']) from by
      simp [encodeRecords]]
    rw [show 2 * ('[' :: (encItems (r :: Rtl) ++ [']'])).length + 2 =
      Nat.succ (2 * ('[' :: (encItems (r :: Rtl) ++ [']'])).length + 1) from rfl]
    rw [parseValue.eq_def]
    rw [show ('[' :: (encItems (r :: Rtl) ++ [']'])).length = (encodeRecords (r :: Rtl)).length
      from by simp [encodeRecords]]
    rw [hf]
    rw [show (5 * Rtl.length + (2 * (encodeRecords (r :: Rtl)).length - 5 * Rtl.length - 4) + 5) =
      (5 * Rtl.length + (2 * (encodeRecords (r :: Rtl)).length - 5 * Rtl.length - 4) + 5) from rfl]
    rw [ht] at harr
    simp only [ht]
    simp [harr, skipWs, List.dropWhile_cons, jsonWs]

theorem rfindAux_last (xs : List Char) (c : Char) :
    ∀ (i best : Int), rfindAux (xs ++ [c]) c i best = i + xs.length := by
  induction xs with
  | nil =>
    intro i best
    simp [rfindAux]
  | cons x xs ih =>
    intro i best
    simp only [List.cons_append, rfindAux]
    rw [List.append_eq, ih]
    simp only [List.length_cons]
    push_cast
    ring

theorem rfindIdx_last (xs : List Char) (c : Char) :
    rfindIdx (xs ++ [c]) c = (xs.length : Int) := by
  unfold rfindIdx
  rw [rfindAux_last]
  simp


/-- C2 (amended): for every record sequence whose strings are free of
quotes, backslashes and control characters, parse on the canonical
structured array text returns exactly the decoded array, NOT truncated
to expected_count: the structured path returns the whole decode and only
the fallback path truncates (see the counterexample). -/
theorem c2_structured_untruncated :
    ∀ (R : List QARecord) (n : Nat), R.all safeRec = true →
      parseResponse (String.mk (encodeRecords R)) n =
        Json.arr (R.map (fun x => objQA x.question x.answer)) := by
  intro R n hall
  have hdata : (String.mk (encodeRecords R)).data = encodeRecords R := rfl
  have hcons : encodeRecords R = '[' :: (encItems R ++ [']']) := by
    simp [encodeRecords]
  have hfind : findIdx (encodeRecords R) '[' = 0 := by
    rw [hcons]
    simp [findIdx]
  have hrfind : rfindIdx (encodeRecords R) ']' = ((encItems R).length + 1 : Nat) := by
    rw [show encodeRecords R = ('[' :: encItems R) ++ [']'] from by simp [encodeRecords]]
    rw [rfindIdx_last]
    simp
  have hlen : (encodeRecords R).length = (encItems R).length + 2 := by
    rw [hcons]
    simp
  have hslice : sliceL (encodeRecords R) 0 (rfindIdx (encodeRecords R) ']' + 1) =
      encodeRecords R := by
    rw [hrfind]
    unfold sliceL
    rw [show ((0 : Int).toNat) = 0 from rfl, List.drop_zero]
    rw [show ((((encItems R).length + 1 : Nat) : Int) + 1).toNat - 0 =
      (encItems R).length + 2 from by omega]
    rw [← hlen, List.take_length]
  unfold parseResponse
  rw [hdata, hfind, hrfind]
  rw [if_pos (by constructor <;> omega)]
  rw [show sliceL (encodeRecords R) 0 (((((encItems R).length + 1 : Nat)) : Int) + 1) =
    encodeRecords R from by rw [← hrfind]; exact hslice]
  rw [jsonLoads_encodeRecords R hall]

/-- C2 witness: a one-record encoding decoded with expected_count 0
still returns the full one-record array. -/
theorem c2_witness :
    parseResponse (String.mk (encodeRecords [⟨"q1", "a1"⟩])) 0 =
      Json.arr [objQA "q1" "a1"] := by
  have h := c2_structured_untruncated [⟨"q1", "a1"⟩] 0 (by decide)
  simpa using h
